import Mathlib

/-!
Verification of `train.py` (simple-simcse): a shallow embedding of the
dataset construction, the batch loader, the contrastive objective, the
encoder wrapper, and the training/evaluation/checkpoint loop, together
with theorems settling the specification claims.

The file is organised as definitions first (each translated from the
source), then the theorems.
-/

set_option autoImplicit false

namespace SimCSE

/-! ## Definitions

### Dataset construction (`SimCSEDataset`, train.py lines 66-86)

A text line is modelled as a list of characters.  `__post_init__` reads the
file line by line, strips each line (`line.strip()`), and appends it to
`self.data` when the stripped line is non-empty (`if line:`). -/

/-- A raw text line. -/
abbrev Line := List Char

/-- The default character class removed by Python's `str.strip()`:
ASCII whitespace (space, tab, newline, carriage return, vertical tab,
form feed). -/
def isPySpace (c : Char) : Bool :=
  c == ' ' || c == '\t' || c == '\n' || c == '\r' ||
  c == Char.ofNat 11 || c == Char.ofNat 12

/-- Python's `str.strip()`: remove leading and trailing whitespace. -/
def pyStrip (l : Line) : Line :=
  ((l.dropWhile isPySpace).reverse.dropWhile isPySpace).reverse

namespace SimCSEDataset

/-- The loop body of `SimCSEDataset.__post_init__`: for each line of the
file, strip it and append it to the retained data exactly when the
stripped line is non-empty. -/
def build : List Line → List Line
  | [] => []
  | line :: rest =>
    let l := pyStrip line
    if l.isEmpty then build rest else l :: build rest

/-- `SimCSEDataset.__len__`. -/
def len (lines : List Line) : Nat :=
  (build lines).length

/-- `SimCSEDataset.__getitem__`: plain indexing into `self.data`. -/
def getitem (lines : List Line) (i : Nat) (h : i < len lines) : Line :=
  (build lines).get ⟨i, h⟩

end SimCSEDataset

/-! ### Batch loader (train.py lines 160-172)

`DataLoader(..., batch_size=B, shuffle=True, drop_last=True)`: the shuffled
sample sequence is cut into consecutive groups of exactly `B` samples and
the final incomplete group is dropped.  The shuffle is modelled by taking
the (arbitrary) post-shuffle sample list as input. -/

/-- The batches yielded by a `DataLoader` with `drop_last=True`: successive
chunks of exactly `B` samples; a final chunk shorter than `B` is dropped. -/
def fullBatches {α : Type} (B : Nat) (xs : List α) : List (List α) :=
  if h : 0 < B ∧ B ≤ xs.length then
    xs.take B :: fullBatches B (xs.drop B)
  else []
termination_by xs.length
decreasing_by
  simp only [List.length_drop]
  exact Nat.sub_lt (Nat.lt_of_lt_of_le h.1 h.2) h.1

/-! ### Label vector and the cross-entropy shape contract
(train.py lines 239-251) -/

/-- `labels = torch.arange(args.batch_size)` (train.py line 249): the label
vector is built from the configured batch size, not from the number of
rows in the current batch. -/
def labels (batch_size : Nat) : List Nat := List.range batch_size

/-- The error raised by a shape-incompatible tensor operation. -/
inductive TorchError where
  | shapeMismatch
  deriving DecidableEq

/-- The shape contract of `F.cross_entropy(input, target)`: the batch
dimension of `input` must equal the length of `target`, otherwise the call
raises. -/
def crossEntropyCheck (inputRows targetLen : Nat) : Except TorchError Unit :=
  if inputRows = targetLen then Except.ok () else Except.error TorchError.shapeMismatch

/-- The batch dimension of `sim_matrix` (train.py line 243): `emb1` and
`emb2` have one row per sample of the current batch, and the broadcast
cosine similarity is square of that dimension. -/
def simMatrixRows (batch : List Line) : Nat := batch.length

/-- The shape check performed by the loss computation of one training step
(train.py line 251): `sim_matrix` is `batch.length × batch.length` while the
target has `(labels batch_size).length` entries. -/
def stepShapeCheck (batch_size : Nat) (batch : List Line) : Except TorchError Unit :=
  crossEntropyCheck (simMatrixRows batch) (labels batch_size).length

/-! ### Configuration (`Args`, train.py lines 34-61)

Parsed command-line arguments with their defaults.  `main` performs no
validation of any field before training starts. -/

/-- The `Args` dataclass (train.py lines 34-61), real-valued hyperparameters
modelled as rationals. -/
structure Args where
  model_name : String := "bert-base-uncased"
  dataset_dir : String := "./datasets/unsup-simcse"
  sts_dir : String := "./datasets/sts"
  output_dir : String := "./outputs"
  batch_size : Nat := 64
  epochs : Nat := 1
  lr : ℚ := 3 / 100000
  num_warmup_steps : Nat := 0
  temperature : ℚ := 1 / 20
  max_seq_len : Nat := 32
  eval_logging_interval : Nat := 250
  seed : Nat := 42
  device : String := "cuda:0"

/-! ### Training loop, evaluation and checkpoint state machine
(train.py lines 209-295)

The numeric content of a gradient step (forward passes, backward, optimizer
and scheduler) does not influence the control flow; the loop's observable
behaviour is driven by the evaluation scores and the logged loss values,
which are taken as oracles `score e s` / `lossVal e s` indexed by epoch and
1-based step (the initial evaluation reads `score 0 0`). -/

/-- `nn.Module` train/eval mode. -/
inductive Mode where
  | train
  | eval
  deriving DecidableEq

/-- A Python value stored in a log record or metrics record. -/
inductive PyVal where
  | vnone : PyVal
  | vint : Int → PyVal
  | vnum : ℚ → PyVal
  deriving DecidableEq

/-- A log record: a Python dict, modelled as its key/value pairs in
insertion order. -/
abbrev Row := List (String × PyVal)

/-- Observable events of the run, in program order. -/
inductive Ev where
  /-- The evaluation at step 0 (train.py lines 209-210), with the mode the
  model was in when the scorer ran. -/
  | initEval (modeDuring : Mode) (sc : ℚ)
  /-- One gradient update (train.py lines 239-257) at a 0-based step index,
  with the mode the model was in. -/
  | gradStep (epoch step : Nat) (mode : Mode)
  /-- One in-training evaluation (train.py lines 260-263) at a 1-based step
  index, with the mode during scoring, the best score before the event, the
  produced score, and whether the best state was updated. -/
  | evalEv (epoch step1 : Nat) (modeDuring : Mode) (prevBest : ℚ) (sc : ℚ)
      (updated : Bool)
  /-- One overwrite of `model.pt` (train.py line 269). -/
  | ckptWrite (step1 : Nat)
  deriving DecidableEq

/-- The mutable state of `main`'s loop. -/
structure RunState where
  mode : Mode
  bestStsb : ℚ
  bestStep : Nat
  /-- The 1-based steps at which `model.pt` was overwritten, in order. -/
  ckptWrites : List Nat
  logs : List Row
  events : List Ev
  /-- The value of `best_stsb` after step 0 and after each in-training
  evaluation event, in order. -/
  bestHist : List ℚ
  deriving DecidableEq

/-- The step-0 log record (train.py lines 213-220); note the score key
`"STSB"`. -/
def initRow (s0 : ℚ) : Row :=
  [("epoch", PyVal.vint 0), ("step", PyVal.vint 0), ("loss", PyVal.vnone),
   ("STSB", PyVal.vnum s0)]

/-- An in-training log record (train.py lines 275-282); note the score key
`"stsb"`. -/
def trainRow (epoch step1 : Nat) (lossVal sc : ℚ) : Row :=
  [("epoch", PyVal.vint epoch), ("step", PyVal.vint step1),
   ("loss", PyVal.vnum lossVal), ("stsb", PyVal.vnum sc)]

/-- The state after train.py lines 209-220: `model.eval()`, the initial
scoring, `best_step = 0`, and the step-0 log record. -/
def initState (score : Nat → Nat → ℚ) : RunState :=
  let s0 := score 0 0
  { mode := Mode.eval
    bestStsb := s0
    bestStep := 0
    ckptWrites := []
    logs := [initRow s0]
    events := [Ev.initEval Mode.eval s0]
    bestHist := [s0] }

/-- The evaluation trigger (train.py line 260):
`(step + 1) % args.eval_logging_interval == 0 or (step + 1) == len(train_dataloader)`. -/
def evalCond (K n step : Nat) : Bool :=
  (step + 1) % K == 0 || (step + 1) == n

/-- The body of the inner loop (train.py lines 225-285) for one 0-based
`step`: a gradient update, then, when `evalCond` holds, `model.eval()`,
scoring, the strict-improvement checkpoint update, the log record, and
`model.train()`. -/
def stepFn (K n : Nat) (score lossVal : Nat → Nat → ℚ) (epoch : Nat)
    (st : RunState) (step : Nat) : RunState :=
  let st := { st with events := st.events ++ [Ev.gradStep epoch step st.mode] }
  if evalCond K n step then
    let st := { st with mode := Mode.eval }
    let sc := score epoch (step + 1)
    let st :=
      { st with
        events := st.events ++
          [Ev.evalEv epoch (step + 1) st.mode st.bestStsb sc
            (decide (st.bestStsb < sc))] }
    let st :=
      if st.bestStsb < sc then
        { st with
          bestStsb := sc
          bestStep := step + 1
          ckptWrites := st.ckptWrites ++ [step + 1]
          events := st.events ++ [Ev.ckptWrite (step + 1)] }
      else st
    { st with
      logs := st.logs ++ [trainRow epoch (step + 1) (lossVal epoch (step + 1)) sc]
      bestHist := st.bestHist ++ [st.bestStsb]
      mode := Mode.train }
  else st

/-- One epoch (train.py lines 222-285): `model.train()`, then the steps
`0, …, n-1` in order. -/
def runEpoch (K n : Nat) (score lossVal : Nat → Nat → ℚ) (epoch : Nat)
    (st : RunState) : RunState :=
  (List.range n).foldl (stepFn K n score lossVal epoch) { st with mode := Mode.train }

/-- The whole loop of `main` (train.py lines 209-285) with `E` epochs,
`n` steps per epoch and evaluation interval `K`. -/
def run (E n K : Nat) (score lossVal : Nat → Nat → ℚ) : RunState :=
  (List.range E).foldl (fun st e => runEpoch K n score lossVal e st) (initState score)

/-- The `best-metrics.json` record (train.py lines 290-295). -/
def bestMetrics (st : RunState) : List (String × PyVal) :=
  [("step", PyVal.vint st.bestStep), ("stsb", PyVal.vnum st.bestStsb)]

/-- The number of steps per epoch, `len(train_dataloader)`: the dataset
length divided by the batch size, rounding down (`drop_last=True`). -/
def numBatches (a : Args) (lines : List Line) : Nat :=
  SimCSEDataset.len lines / a.batch_size

/-- `main` (train.py lines 140-295) as far as its observable loop behaviour
is concerned: no validation of any configuration field is performed between
argument parsing and the training loop. -/
def mainRun (a : Args) (lines : List Line) (score lossVal : Nat → Nat → ℚ) : RunState :=
  run a.epochs (numBatches a lines) a.eval_logging_interval score lossVal

/-- Recognise a gradient-update event. -/
def isGradStep : Ev → Bool
  | Ev.gradStep .. => true
  | _ => false

/-- Recognise an evaluation event (the step-0 one included). -/
def isEvalEvent : Ev → Bool
  | Ev.initEval .. => true
  | Ev.evalEv .. => true
  | _ => false

/-- Project an in-training evaluation event to its (epoch, 1-based step)
stamp. -/
def evalStamp : Ev → Option (Nat × Nat)
  | Ev.evalEv e s _ _ _ _ => some (e, s)
  | _ => none

/-- Project a gradient-update event to its (epoch, 0-based step) stamp. -/
def gradStamp : Ev → Option (Nat × Nat)
  | Ev.gradStep e s _ => some (e, s)
  | _ => none

/-- Recognise the step-0 evaluation event. -/
def isInitEval : Ev → Bool
  | Ev.initEval .. => true
  | _ => false

/-- Project an in-training evaluation event that updated the best state to
its 1-based step. -/
def updStamp : Ev → Option Nat
  | Ev.evalEv _ s _ _ _ true => some s
  | _ => none

/-- The (epoch, 1-based step) points at which train.py line 260 fires, in
program order. -/
def evalStampsSpec (E n K : Nat) : List (Nat × Nat) :=
  (List.range E).flatMap (fun e =>
    ((List.range n).filter (fun step => evalCond K n step)).map
      (fun step => (e, step + 1)))

/-- Mode discipline of a single event: scoring always happens in eval mode,
gradient updates always happen in train mode. -/
def evModeOk : Ev → Bool
  | Ev.initEval md _ => md == Mode.eval
  | Ev.gradStep _ _ md => md == Mode.train
  | Ev.evalEv _ _ md _ _ _ => md == Mode.eval
  | Ev.ckptWrite _ => true

/-- Update discipline of a single event: the best state is updated exactly
when the produced score strictly exceeds the best score before the event. -/
def evUpdOk : Ev → Bool
  | Ev.evalEv _ _ _ pb sc u => u == decide (pb < sc)
  | _ => true

/-- The columns of `pd.DataFrame(logs)` (train.py line 288): the union of
the rows' keys, in first-seen order. -/
def dfColumns (logs : List Row) : List String :=
  (logs.flatMap (fun r => r.map Prod.fst)).foldl
    (fun acc k => if k ∈ acc then acc else acc ++ [k]) []

/-! ### Contrastive objective over real embeddings (train.py lines 239-251)

`emb1`/`emb2` are `B × H` real matrices.  `F.cosine_similarity(x1, x2, dim,
eps)` computes `⟪x1, x2⟫ / max(‖x1‖·‖x2‖, eps)` (torch's documented
formula, default `eps = 1e-8`); broadcasting `emb1.unsqueeze(1)` against
`emb2.unsqueeze(0)` gives the `B × B` matrix of all pairwise values. -/

/-- An embedding matrix: `B` rows of width `H`. -/
abbrev Mat (B H : Nat) := Fin B → Fin H → ℝ

/-- Euclidean inner product of two embedding rows. -/
def dotp {H : Nat} (u v : Fin H → ℝ) : ℝ := ∑ k, u k * v k

/-- Euclidean norm of an embedding row. -/
noncomputable def rowNorm {H : Nat} (u : Fin H → ℝ) : ℝ := Real.sqrt (dotp u u)

/-- `F.cosine_similarity` of two rows with stabiliser `eps`. -/
noncomputable def cosineSim {H : Nat} (eps : ℝ) (u v : Fin H → ℝ) : ℝ :=
  dotp u v / max (rowNorm u * rowNorm v) eps

/-- `sim_matrix` after the division by the temperature
(train.py lines 243-246). -/
noncomputable def simMatrix {B H : Nat} (eps τ : ℝ) (E1 E2 : Mat B H) : Mat B B :=
  fun i j => cosineSim eps (E1 i) (E2 j) / τ

/-- Categorical cross-entropy of one row of logits against class `y`:
`-log(softmax(z)[y])`. -/
noncomputable def crossEntropyRow {C : Nat} (z : Fin C → ℝ) (y : Fin C) : ℝ :=
  -Real.log (Real.exp (z y) / ∑ j, Real.exp (z j))

/-- `F.cross_entropy(input, target)` with the default mean reduction over
the batch dimension. -/
noncomputable def FcrossEntropy {N C : Nat} (input : Fin N → Fin C → ℝ)
    (target : Fin N → Fin C) : ℝ :=
  (∑ i, crossEntropyRow (input i) (target i)) / N

/-- `labels = torch.arange(batch_size)` (train.py line 249) viewed as the
target of row `i`, namely `i` itself. -/
def diagLabels (B : Nat) : Fin B → Fin B := fun i => i

/-- The loss of one training step (train.py line 251):
`F.cross_entropy(sim_matrix, labels)`. -/
noncomputable def stepLoss {B H : Nat} (eps τ : ℝ) (E1 E2 : Mat B H) : ℝ :=
  FcrossEntropy (simMatrix eps τ E1 E2) (diagLabels B)

/-- Stated from the spec's words, for comparison with the code-derived
`simMatrix`: "entry (i,j) is the cosine similarity between row i of E1 and
row j of E2, divided by the temperature" — the mathematical cosine, with no
stabiliser. -/
noncomputable def specSimEntry {B H : Nat} (τ : ℝ) (E1 E2 : Mat B H)
    (i j : Fin B) : ℝ :=
  (dotp (E1 i) (E2 j) / (rowNorm (E1 i) * rowNorm (E2 j))) / τ

/-- Stated from the spec's words, for comparison with the code-derived
`stepLoss`: "the mean over rows i of the categorical cross-entropy of row i
of that matrix against label i". -/
noncomputable def specMeanRowCE {B H : Nat} (eps τ : ℝ) (E1 E2 : Mat B H) : ℝ :=
  (∑ i, crossEntropyRow (fun j => simMatrix eps τ E1 E2 i j) i) / B

/-! ### Encoder wrapper (`SimCSEModel`, train.py lines 89-130) -/

/-- The parameters of the projection head `self.dense`, an
`nn.Linear(hidden_size, hidden_size)`. -/
structure Dense (H : Nat) where
  weight : Fin H → Fin H → ℝ
  bias : Fin H → ℝ

/-- `self.dense` applied to a vector: `W·v + b`. -/
def Dense.apply {H : Nat} (d : Dense H) (v : Fin H → ℝ) : Fin H → ℝ :=
  fun j => (∑ k, d.weight j k * v k) + d.bias j

/-- `[CLS]` pooling (train.py line 122): the final hidden state at sequence
position 0.  Writing the sequence length as `L + 1` keeps position 0 well
defined. -/
def clsPool {B L H : Nat} (lastHidden : Fin B → Fin (L + 1) → Fin H → ℝ) :
    Fin B → Fin H → ℝ :=
  fun i => lastHidden i 0

/-- `SimCSEModel.forward` (train.py lines 102-130) after the backbone has
produced `last_hidden_state`: pool at position 0, then, when `use_mlp`,
apply `self.dense` followed by `nn.Tanh`. -/
noncomputable def SimCSEModel.forward {B L H : Nat} (d : Dense H)
    (lastHidden : Fin B → Fin (L + 1) → Fin H → ℝ) (use_mlp : Bool) :
    Fin B → Fin H → ℝ :=
  fun i =>
    let emb := clsPool lastHidden i
    if use_mlp then fun j => Real.tanh (Dense.apply d emb j) else emb

end SimCSE

namespace SimCSE

/-! ## Theorems -/

theorem build_eq_filter_map (lines : List Line) :
    SimCSEDataset.build lines
      = (lines.map pyStrip).filter (fun l => !l.isEmpty) := by
  induction lines with
  | nil => rfl
  | cons line rest ih =>
    simp only [SimCSEDataset.build, List.map_cons, List.filter_cons]
    by_cases h : (pyStrip line).isEmpty
    · simp [h, ih]
    · simp [h, ih]

theorem fullBatches_length {α : Type} (B : Nat) (hB : 0 < B) (xs : List α) :
    (fullBatches B xs).length = xs.length / B := by
  induction xs using fullBatches.induct B with
  | case1 xs h ih =>
    rw [fullBatches, dif_pos h]
    simp only [List.length_cons, ih, List.length_drop]
    rw [Nat.div_eq_sub_div hB h.2]
  | case2 xs h =>
    rw [fullBatches, dif_neg h]
    have hlt : xs.length < B := by omega
    exact (Nat.div_eq_of_lt hlt).symm

theorem fullBatches_batch_length {α : Type} (B : Nat) (xs : List α) :
    ∀ b ∈ fullBatches B xs, b.length = B := by
  induction xs using fullBatches.induct B with
  | case1 xs h ih =>
    intro b hb
    rw [fullBatches, dif_pos h] at hb
    rcases List.mem_cons.mp hb with hb | hb
    · subst hb
      simp only [List.length_take]
      exact Nat.min_eq_left h.2
    · exact ih b hb
  | case2 xs h =>
    intro b hb
    rw [fullBatches, dif_neg h] at hb
    exact absurd hb (List.not_mem_nil b)

theorem fullBatches_flatten {α : Type} (B : Nat) (hB : 0 < B) (xs : List α) :
    (fullBatches B xs).flatten = xs.take (B * (xs.length / B)) := by
  induction xs using fullBatches.induct B with
  | case1 xs h ih =>
    rw [fullBatches, dif_pos h]
    simp only [List.flatten_cons, ih, List.length_drop]
    have hdiv : B * (xs.length / B) = B + B * ((xs.length - B) / B) := by
      rw [Nat.div_eq_sub_div hB h.2]; ring
    rw [hdiv, List.take_add]
  | case2 xs h =>
    rw [fullBatches, dif_neg h]
    have hlt : xs.length < B := by omega
    rw [Nat.div_eq_of_lt hlt]
    simp

theorem tanh_le_one (x : ℝ) : Real.tanh x ≤ 1 := by
  rw [Real.tanh_eq_sinh_div_cosh, div_le_one (Real.cosh_pos x)]
  exact (Real.sinh_lt_cosh x).le

theorem neg_one_le_tanh (x : ℝ) : -1 ≤ Real.tanh x := by
  rw [Real.tanh_eq_sinh_div_cosh, le_div_iff₀ (Real.cosh_pos x)]
  have h := (Real.sinh_lt_cosh (-x)).le
  rw [Real.sinh_neg, Real.cosh_neg] at h
  linarith

theorem rowNorm_nonneg {H : Nat} (u : Fin H → ℝ) : 0 ≤ rowNorm u :=
  Real.sqrt_nonneg _

/-- C5: the encoder wrapper pools the final hidden state at sequence
position 0; in training mode (`use_mlp`) it returns the pooled vector
passed through the learned linear map followed by `Tanh`, so every
component lies in `[-1, 1]`; in raw mode it returns the pooled vector with
no projection applied. -/
theorem forward_pools_cls_then_projects_iff_mlp {B L H : Nat} (d : Dense H)
    (lastHidden : Fin B → Fin (L + 1) → Fin H → ℝ) :
    (∀ i j, SimCSEModel.forward d lastHidden true i j
        = Real.tanh (Dense.apply d (clsPool lastHidden i) j))
    ∧ (∀ i j, SimCSEModel.forward d lastHidden true i j ∈ Set.Icc (-1 : ℝ) 1)
    ∧ SimCSEModel.forward d lastHidden false = clsPool lastHidden
    ∧ (∀ i, clsPool lastHidden i = lastHidden i 0) := by
  refine ⟨fun i j => rfl, fun i j => ?_, rfl, fun i => rfl⟩
  exact Set.mem_Icc.mpr ⟨neg_one_le_tanh _, tanh_le_one _⟩

/-- C1: the training step computes the `B × B` matrix whose entry `(i, j)`
is the (stabilised) cosine similarity of row `i` of `E1` and row `j` of
`E2` divided by the temperature — exactly the cosine similarity whenever
the stabiliser is inactive — and the step's loss is the mean over rows of
the categorical cross-entropy of row `i` against the diagonal label `i`. -/
theorem stepLoss_is_mean_diagonal_crossEntropy {B H : Nat} (eps τ : ℝ)
    (E1 E2 : Mat B H)
    (heps : ∀ i j, eps ≤ rowNorm (E1 i) * rowNorm (E2 j)) :
    (∀ i j, simMatrix eps τ E1 E2 i j = specSimEntry τ E1 E2 i j)
    ∧ stepLoss eps τ E1 E2 = specMeanRowCE eps τ E1 E2 := by
  constructor
  · intro i j
    simp only [simMatrix, cosineSim, specSimEntry]
    rw [max_eq_left (heps i j)]
  · rfl

/-! ### Generic fold helpers -/

theorem foldl_inv {β σ : Type} (f : σ → β → σ) (P : σ → Prop) (l : List β)
    (hstep : ∀ s b, b ∈ l → P s → P (f s b)) (s : σ) (h : P s) :
    P (l.foldl f s) := by
  induction l generalizing s with
  | nil => exact h
  | cons b t ih =>
    exact ih (fun s' b' hb' => hstep s' b' (List.mem_cons_of_mem b hb')) _
      (hstep s b (List.mem_cons_self b t) h)

theorem foldl_proj {β σ γ : Type} (f : σ → β → σ) (proj : σ → List γ)
    (g : β → List γ) (l : List β)
    (hstep : ∀ s b, proj (f s b) = proj s ++ g b) (s : σ) :
    proj (l.foldl f s) = proj s ++ l.flatMap g := by
  induction l generalizing s with
  | nil => simp
  | cons b t ih =>
    simp only [List.foldl_cons, List.flatMap_cons]
    rw [ih (f s b), hstep s b, List.append_assoc]

theorem flatMap_if_singleton {β γ : Type} (p : β → Bool) (h : β → γ)
    (l : List β) :
    (l.flatMap (fun b => if p b then [h b] else [])) = (l.filter p).map h := by
  induction l with
  | nil => rfl
  | cons b t ih =>
    simp only [List.flatMap_cons, List.filter_cons]
    by_cases hb : p b
    · simp [hb, ih]
    · simp [hb, ih]

/-! ### Per-step lemmas about `stepFn` -/

theorem stepFn_events_evalStamp (K n : Nat) (score lossVal : Nat → Nat → ℚ)
    (e : Nat) (st : RunState) (step : Nat) :
    (stepFn K n score lossVal e st step).events.filterMap evalStamp
      = st.events.filterMap evalStamp
        ++ (if evalCond K n step then [(e, step + 1)] else []) := by
  by_cases hc : evalCond K n step
  · by_cases hu : st.bestStsb < score e (step + 1)
    · simp [stepFn, hc, hu, evalStamp, List.filterMap_append]
    · simp [stepFn, hc, hu, evalStamp, List.filterMap_append]
  · simp [stepFn, hc, evalStamp, List.filterMap_append]

theorem stepFn_events_gradStamp (K n : Nat) (score lossVal : Nat → Nat → ℚ)
    (e : Nat) (st : RunState) (step : Nat) :
    (stepFn K n score lossVal e st step).events.filterMap gradStamp
      = st.events.filterMap gradStamp ++ [(e, step)] := by
  by_cases hc : evalCond K n step
  · by_cases hu : st.bestStsb < score e (step + 1)
    · simp [stepFn, hc, hu, gradStamp, List.filterMap_append]
    · simp [stepFn, hc, hu, gradStamp, List.filterMap_append]
  · simp [stepFn, hc, gradStamp, List.filterMap_append]

theorem stepFn_logs (K n : Nat) (score lossVal : Nat → Nat → ℚ)
    (e : Nat) (st : RunState) (step : Nat) :
    (stepFn K n score lossVal e st step).logs
      = st.logs
        ++ (if evalCond K n step then
              [trainRow e (step + 1) (lossVal e (step + 1)) (score e (step + 1))]
            else []) := by
  by_cases hc : evalCond K n step
  · by_cases hu : st.bestStsb < score e (step + 1)
    · simp [stepFn, hc, hu]
    · simp [stepFn, hc, hu]
  · simp [stepFn, hc]

theorem stepFn_mode (K n : Nat) (score lossVal : Nat → Nat → ℚ)
    (e : Nat) (st : RunState) (step : Nat) (h : st.mode = Mode.train) :
    (stepFn K n score lossVal e st step).mode = Mode.train := by
  by_cases hc : evalCond K n step
  · by_cases hu : st.bestStsb < score e (step + 1)
    · simp [stepFn, hc, hu]
    · simp [stepFn, hc, hu]
  · simpa [stepFn, hc] using h

theorem stepFn_evModeOk (K n : Nat) (score lossVal : Nat → Nat → ℚ)
    (e : Nat) (st : RunState) (step : Nat) (hm : st.mode = Mode.train)
    (hok : ∀ ev ∈ st.events, evModeOk ev = true) :
    ∀ ev ∈ (stepFn K n score lossVal e st step).events, evModeOk ev = true := by
  intro ev hev
  by_cases hc : evalCond K n step
  · by_cases hu : st.bestStsb < score e (step + 1)
    · simp [stepFn, hc, hu] at hev
      rcases hev with hev | hev | hev | hev
      · exact hok ev hev
      all_goals subst hev
      all_goals simp [evModeOk, hm]
    · simp [stepFn, hc, hu] at hev
      rcases hev with hev | hev | hev
      · exact hok ev hev
      all_goals subst hev
      all_goals simp [evModeOk, hm]
  · simp [stepFn, hc] at hev
    rcases hev with hev | hev
    · exact hok ev hev
    · subst hev
      simp [evModeOk, hm]

theorem stepFn_evUpdOk (K n : Nat) (score lossVal : Nat → Nat → ℚ)
    (e : Nat) (st : RunState) (step : Nat)
    (hok : ∀ ev ∈ st.events, evUpdOk ev = true) :
    ∀ ev ∈ (stepFn K n score lossVal e st step).events, evUpdOk ev = true := by
  intro ev hev
  by_cases hc : evalCond K n step
  · by_cases hu : st.bestStsb < score e (step + 1)
    · simp [stepFn, hc, hu] at hev
      rcases hev with hev | hev | hev | hev
      · exact hok ev hev
      all_goals subst hev
      all_goals simp [evUpdOk, hu]
    · simp [stepFn, hc, hu] at hev
      rcases hev with hev | hev | hev
      · exact hok ev hev
      all_goals subst hev
      all_goals simp [evUpdOk, hu]
  · simp [stepFn, hc] at hev
    rcases hev with hev | hev
    · exact hok ev hev
    · subst hev
      simp [evUpdOk]

theorem stepFn_initCount (K n : Nat) (score lossVal : Nat → Nat → ℚ)
    (e : Nat) (st : RunState) (step : Nat) :
    (stepFn K n score lossVal e st step).events.countP isInitEval
      = st.events.countP isInitEval := by
  by_cases hc : evalCond K n step
  · by_cases hu : st.bestStsb < score e (step + 1)
    · simp [stepFn, hc, hu, List.countP_append, isInitEval]
    · simp [stepFn, hc, hu, List.countP_append, isInitEval]
  · simp [stepFn, hc, List.countP_append, isInitEval]

theorem stepFn_logs_length (K n : Nat) (score lossVal : Nat → Nat → ℚ)
    (e : Nat) (st : RunState) (step : Nat)
    (h : st.logs.length = st.events.countP isEvalEvent) :
    (stepFn K n score lossVal e st step).logs.length
      = (stepFn K n score lossVal e st step).events.countP isEvalEvent := by
  by_cases hc : evalCond K n step
  · by_cases hu : st.bestStsb < score e (step + 1)
    · simp [stepFn, hc, hu, List.countP_append, isEvalEvent, h]
    · simp [stepFn, hc, hu, List.countP_append, isEvalEvent, h]
  · simp [stepFn, hc, List.countP_append, isEvalEvent, h]

theorem stepFn_ckptWrites_updStamp (K n : Nat) (score lossVal : Nat → Nat → ℚ)
    (e : Nat) (st : RunState) (step : Nat)
    (h : st.ckptWrites = st.events.filterMap updStamp) :
    (stepFn K n score lossVal e st step).ckptWrites
      = (stepFn K n score lossVal e st step).events.filterMap updStamp := by
  by_cases hc : evalCond K n step
  · by_cases hu : st.bestStsb < score e (step + 1)
    · simp [stepFn, hc, hu, List.filterMap_append, updStamp, h]
    · simp [stepFn, hc, hu, List.filterMap_append, updStamp, h]
  · simp [stepFn, hc, List.filterMap_append, updStamp, h]

theorem stepFn_bestHist (K n : Nat) (score lossVal : Nat → Nat → ℚ)
    (e : Nat) (st : RunState) (step : Nat)
    (h1 : List.Chain' (· ≤ ·) st.bestHist)
    (h2 : st.bestHist.getLast? = some st.bestStsb) :
    List.Chain' (· ≤ ·) (stepFn K n score lossVal e st step).bestHist
      ∧ (stepFn K n score lossVal e st step).bestHist.getLast?
          = some (stepFn K n score lossVal e st step).bestStsb := by
  by_cases hc : evalCond K n step
  · by_cases hu : st.bestStsb < score e (step + 1)
    · have hbh : (stepFn K n score lossVal e st step).bestHist
          = st.bestHist ++ [score e (step + 1)] := by simp [stepFn, hc, hu]
      have hbs : (stepFn K n score lossVal e st step).bestStsb
          = score e (step + 1) := by simp [stepFn, hc, hu]
      rw [hbh, hbs, List.getLast?_concat]
      refine ⟨?_, rfl⟩
      refine List.Chain'.append h1 (List.chain'_singleton _) ?_
      intro x hx y hy
      rw [h2] at hx
      simp only [Option.mem_def, Option.some.injEq] at hx
      simp only [List.head?_cons, Option.mem_def, Option.some.injEq] at hy
      subst hx; subst hy
      exact le_of_lt hu
    · have hbh : (stepFn K n score lossVal e st step).bestHist
          = st.bestHist ++ [st.bestStsb] := by simp [stepFn, hc, hu]
      have hbs : (stepFn K n score lossVal e st step).bestStsb
          = st.bestStsb := by simp [stepFn, hc, hu]
      rw [hbh, hbs, List.getLast?_concat]
      refine ⟨?_, rfl⟩
      refine List.Chain'.append h1 (List.chain'_singleton _) ?_
      intro x hx y hy
      rw [h2] at hx
      simp only [Option.mem_def, Option.some.injEq] at hx
      simp only [List.head?_cons, Option.mem_def, Option.some.injEq] at hy
      subst hx; subst hy
      exact le_refl _
  · have hbh : (stepFn K n score lossVal e st step).bestHist = st.bestHist := by
      simp [stepFn, hc]
    have hbs : (stepFn K n score lossVal e st step).bestStsb = st.bestStsb := by
      simp [stepFn, hc]
    rw [hbh, hbs]
    exact ⟨h1, h2⟩

theorem stepFn_no_improvement (K n : Nat) (score lossVal : Nat → Nat → ℚ)
    (e : Nat) (st : RunState) (step : Nat) (s0 : ℚ)
    (hsc : score e (step + 1) ≤ s0)
    (h1 : st.bestStsb = s0) (h2 : st.bestStep = 0) (h3 : st.ckptWrites = []) :
    (stepFn K n score lossVal e st step).bestStsb = s0
      ∧ (stepFn K n score lossVal e st step).bestStep = 0
      ∧ (stepFn K n score lossVal e st step).ckptWrites = [] := by
  have hu : ¬ (s0 : ℚ) < score e (step + 1) := not_lt.mpr hsc
  by_cases hc : evalCond K n step
  · simp [stepFn, hc, h1, h2, h3, hu]
  · simp [stepFn, hc, h1, h2, h3]

theorem stepFn_events_ext (K n : Nat) (score lossVal : Nat → Nat → ℚ)
    (e : Nat) (st : RunState) (step : Nat) :
    ∃ l, (stepFn K n score lossVal e st step).events = st.events ++ l := by
  by_cases hc : evalCond K n step
  · by_cases hu : st.bestStsb < score e (step + 1)
    · refine ⟨[Ev.gradStep e step st.mode,
        Ev.evalEv e (step + 1) Mode.eval st.bestStsb (score e (step + 1))
          (decide (st.bestStsb < score e (step + 1))),
        Ev.ckptWrite (step + 1)], ?_⟩
      simp [stepFn, hc, hu]
    · refine ⟨[Ev.gradStep e step st.mode,
        Ev.evalEv e (step + 1) Mode.eval st.bestStsb (score e (step + 1))
          (decide (st.bestStsb < score e (step + 1)))], ?_⟩
      simp [stepFn, hc, hu]
  · exact ⟨[Ev.gradStep e step st.mode], by simp [stepFn, hc]⟩

/-! ### Epoch-level lemmas about `runEpoch` -/

theorem runEpoch_events_evalStamp (K n : Nat) (score lossVal : Nat → Nat → ℚ)
    (e : Nat) (st : RunState) :
    (runEpoch K n score lossVal e st).events.filterMap evalStamp
      = st.events.filterMap evalStamp
        ++ ((List.range n).filter (fun step => evalCond K n step)).map
            (fun step => (e, step + 1)) := by
  unfold runEpoch
  rw [foldl_proj (stepFn K n score lossVal e)
      (fun s => s.events.filterMap evalStamp)
      (fun step => if evalCond K n step then [(e, step + 1)] else [])
      (List.range n)
      (fun s b => stepFn_events_evalStamp K n score lossVal e s b)
      { st with mode := Mode.train }]
  rw [flatMap_if_singleton]

theorem runEpoch_events_gradStamp (K n : Nat) (score lossVal : Nat → Nat → ℚ)
    (e : Nat) (st : RunState) :
    (runEpoch K n score lossVal e st).events.filterMap gradStamp
      = st.events.filterMap gradStamp
        ++ (List.range n).map (fun step => (e, step)) := by
  unfold runEpoch
  rw [foldl_proj (stepFn K n score lossVal e)
      (fun s => s.events.filterMap gradStamp)
      (fun step => [(e, step)])
      (List.range n)
      (fun s b => stepFn_events_gradStamp K n score lossVal e s b)
      { st with mode := Mode.train }]
  congr 1
  induction List.range n with
  | nil => rfl
  | cons b t ih => simp [ih]

theorem runEpoch_logs (K n : Nat) (score lossVal : Nat → Nat → ℚ)
    (e : Nat) (st : RunState) :
    (runEpoch K n score lossVal e st).logs
      = st.logs
        ++ ((List.range n).filter (fun step => evalCond K n step)).map
            (fun step =>
              trainRow e (step + 1) (lossVal e (step + 1)) (score e (step + 1))) := by
  unfold runEpoch
  rw [foldl_proj (stepFn K n score lossVal e)
      (fun s => s.logs)
      (fun step => if evalCond K n step then
          [trainRow e (step + 1) (lossVal e (step + 1)) (score e (step + 1))]
        else [])
      (List.range n)
      (fun s b => stepFn_logs K n score lossVal e s b)
      { st with mode := Mode.train }]
  rw [flatMap_if_singleton]

theorem runEpoch_evModeOk (K n : Nat) (score lossVal : Nat → Nat → ℚ)
    (e : Nat) (st : RunState)
    (hok : ∀ ev ∈ st.events, evModeOk ev = true) :
    ∀ ev ∈ (runEpoch K n score lossVal e st).events, evModeOk ev = true := by
  unfold runEpoch
  have h := foldl_inv (stepFn K n score lossVal e)
    (fun s => s.mode = Mode.train ∧ ∀ ev ∈ s.events, evModeOk ev = true)
    (List.range n) ?_ { st with mode := Mode.train } ⟨rfl, hok⟩
  · exact h.2
  · rintro s b _ ⟨hm, hok'⟩
    exact ⟨stepFn_mode K n score lossVal e s b hm,
      stepFn_evModeOk K n score lossVal e s b hm hok'⟩

theorem runEpoch_evUpdOk (K n : Nat) (score lossVal : Nat → Nat → ℚ)
    (e : Nat) (st : RunState)
    (hok : ∀ ev ∈ st.events, evUpdOk ev = true) :
    ∀ ev ∈ (runEpoch K n score lossVal e st).events, evUpdOk ev = true := by
  unfold runEpoch
  exact foldl_inv (stepFn K n score lossVal e)
    (fun s => ∀ ev ∈ s.events, evUpdOk ev = true)
    (List.range n)
    (fun s b _ hok' => stepFn_evUpdOk K n score lossVal e s b hok')
    { st with mode := Mode.train } hok

theorem runEpoch_initCount (K n : Nat) (score lossVal : Nat → Nat → ℚ)
    (e : Nat) (st : RunState) :
    (runEpoch K n score lossVal e st).events.countP isInitEval
      = st.events.countP isInitEval := by
  unfold runEpoch
  exact foldl_inv (stepFn K n score lossVal e)
    (fun s => s.events.countP isInitEval = st.events.countP isInitEval)
    (List.range n)
    (fun s b _ h => (stepFn_initCount K n score lossVal e s b).trans h)
    { st with mode := Mode.train } rfl

theorem runEpoch_logs_length (K n : Nat) (score lossVal : Nat → Nat → ℚ)
    (e : Nat) (st : RunState)
    (h : st.logs.length = st.events.countP isEvalEvent) :
    (runEpoch K n score lossVal e st).logs.length
      = (runEpoch K n score lossVal e st).events.countP isEvalEvent := by
  unfold runEpoch
  exact foldl_inv (stepFn K n score lossVal e)
    (fun s => s.logs.length = s.events.countP isEvalEvent)
    (List.range n)
    (fun s b _ h' => stepFn_logs_length K n score lossVal e s b h')
    { st with mode := Mode.train } h

theorem runEpoch_ckptWrites_updStamp (K n : Nat) (score lossVal : Nat → Nat → ℚ)
    (e : Nat) (st : RunState)
    (h : st.ckptWrites = st.events.filterMap updStamp) :
    (runEpoch K n score lossVal e st).ckptWrites
      = (runEpoch K n score lossVal e st).events.filterMap updStamp := by
  unfold runEpoch
  exact foldl_inv (stepFn K n score lossVal e)
    (fun s => s.ckptWrites = s.events.filterMap updStamp)
    (List.range n)
    (fun s b _ h' => stepFn_ckptWrites_updStamp K n score lossVal e s b h')
    { st with mode := Mode.train } h

theorem runEpoch_bestHist (K n : Nat) (score lossVal : Nat → Nat → ℚ)
    (e : Nat) (st : RunState)
    (h1 : List.Chain' (· ≤ ·) st.bestHist)
    (h2 : st.bestHist.getLast? = some st.bestStsb) :
    List.Chain' (· ≤ ·) (runEpoch K n score lossVal e st).bestHist
      ∧ (runEpoch K n score lossVal e st).bestHist.getLast?
          = some (runEpoch K n score lossVal e st).bestStsb := by
  unfold runEpoch
  exact foldl_inv (stepFn K n score lossVal e)
    (fun s => List.Chain' (· ≤ ·) s.bestHist
      ∧ s.bestHist.getLast? = some s.bestStsb)
    (List.range n)
    (fun s b _ h' => stepFn_bestHist K n score lossVal e s b h'.1 h'.2)
    { st with mode := Mode.train } ⟨h1, h2⟩

theorem runEpoch_no_improvement (K n : Nat) (score lossVal : Nat → Nat → ℚ)
    (e : Nat) (st : RunState) (s0 : ℚ)
    (hsc : ∀ s, 1 ≤ s → s ≤ n → score e s ≤ s0)
    (h1 : st.bestStsb = s0) (h2 : st.bestStep = 0) (h3 : st.ckptWrites = []) :
    (runEpoch K n score lossVal e st).bestStsb = s0
      ∧ (runEpoch K n score lossVal e st).bestStep = 0
      ∧ (runEpoch K n score lossVal e st).ckptWrites = [] := by
  unfold runEpoch
  refine foldl_inv (stepFn K n score lossVal e)
    (fun s => s.bestStsb = s0 ∧ s.bestStep = 0 ∧ s.ckptWrites = [])
    (List.range n) ?_ { st with mode := Mode.train } ⟨h1, h2, h3⟩
  rintro s b hb ⟨g1, g2, g3⟩
  have hbn : b < n := List.mem_range.mp hb
  exact stepFn_no_improvement K n score lossVal e s b s0
    (hsc (b + 1) (Nat.succ_le_succ (Nat.zero_le b)) hbn) g1 g2 g3

theorem runEpoch_events_ext (K n : Nat) (score lossVal : Nat → Nat → ℚ)
    (e : Nat) (st : RunState) :
    ∃ l, (runEpoch K n score lossVal e st).events = st.events ++ l := by
  unfold runEpoch
  refine foldl_inv (stepFn K n score lossVal e)
    (fun s => ∃ l, s.events = st.events ++ l)
    (List.range n) ?_ { st with mode := Mode.train } ⟨[], by simp⟩
  rintro s b _ ⟨l, hl⟩
  obtain ⟨l', hl'⟩ := stepFn_events_ext K n score lossVal e s b
  exact ⟨l ++ l', by rw [hl', hl, List.append_assoc]⟩

/-! ### Run-level lemmas -/

theorem run_events_evalStamp (E n K : Nat) (score lossVal : Nat → Nat → ℚ) :
    (run E n K score lossVal).events.filterMap evalStamp
      = evalStampsSpec E n K := by
  unfold run
  rw [foldl_proj (fun st e => runEpoch K n score lossVal e st)
      (fun s => s.events.filterMap evalStamp)
      (fun e => ((List.range n).filter (fun step => evalCond K n step)).map
        (fun step => (e, step + 1)))
      (List.range E)
      (fun s e => runEpoch_events_evalStamp K n score lossVal e s)
      (initState score)]
  simp [initState, evalStamp, evalStampsSpec]

theorem run_events_gradStamp (E n K : Nat) (score lossVal : Nat → Nat → ℚ) :
    (run E n K score lossVal).events.filterMap gradStamp
      = (List.range E).flatMap (fun e =>
          (List.range n).map (fun step => (e, step))) := by
  unfold run
  rw [foldl_proj (fun st e => runEpoch K n score lossVal e st)
      (fun s => s.events.filterMap gradStamp)
      (fun e => (List.range n).map (fun step => (e, step)))
      (List.range E)
      (fun s e => runEpoch_events_gradStamp K n score lossVal e s)
      (initState score)]
  simp [initState, gradStamp]

theorem run_logs (E n K : Nat) (score lossVal : Nat → Nat → ℚ) :
    (run E n K score lossVal).logs
      = initRow (score 0 0)
        :: (List.range E).flatMap (fun e =>
            ((List.range n).filter (fun step => evalCond K n step)).map
              (fun step =>
                trainRow e (step + 1) (lossVal e (step + 1)) (score e (step + 1)))) := by
  unfold run
  rw [foldl_proj (fun st e => runEpoch K n score lossVal e st)
      (fun s => s.logs)
      (fun e => ((List.range n).filter (fun step => evalCond K n step)).map
        (fun step =>
          trainRow e (step + 1) (lossVal e (step + 1)) (score e (step + 1))))
      (List.range E)
      (fun s e => runEpoch_logs K n score lossVal e s)
      (initState score)]
  simp [initState]

theorem run_evModeOk (E n K : Nat) (score lossVal : Nat → Nat → ℚ) :
    ∀ ev ∈ (run E n K score lossVal).events, evModeOk ev = true := by
  unfold run
  refine foldl_inv (fun st e => runEpoch K n score lossVal e st)
    (fun s => ∀ ev ∈ s.events, evModeOk ev = true)
    (List.range E) ?_ (initState score) ?_
  · intro s e _ hok
    exact runEpoch_evModeOk K n score lossVal e s hok
  · intro ev hev
    simp only [initState, List.mem_singleton] at hev
    subst hev
    rfl

theorem run_evUpdOk (E n K : Nat) (score lossVal : Nat → Nat → ℚ) :
    ∀ ev ∈ (run E n K score lossVal).events, evUpdOk ev = true := by
  unfold run
  refine foldl_inv (fun st e => runEpoch K n score lossVal e st)
    (fun s => ∀ ev ∈ s.events, evUpdOk ev = true)
    (List.range E) ?_ (initState score) ?_
  · intro s e _ hok
    exact runEpoch_evUpdOk K n score lossVal e s hok
  · intro ev hev
    simp only [initState, List.mem_singleton] at hev
    subst hev
    rfl

theorem run_initCount (E n K : Nat) (score lossVal : Nat → Nat → ℚ) :
    (run E n K score lossVal).events.countP isInitEval = 1 := by
  unfold run
  refine foldl_inv (fun st e => runEpoch K n score lossVal e st)
    (fun s => s.events.countP isInitEval = 1)
    (List.range E) ?_ (initState score) ?_
  · intro s e _ h
    exact (runEpoch_initCount K n score lossVal e s).trans h
  · simp [initState, isInitEval, List.countP_cons]

theorem run_logs_length (E n K : Nat) (score lossVal : Nat → Nat → ℚ) :
    (run E n K score lossVal).logs.length
      = (run E n K score lossVal).events.countP isEvalEvent := by
  unfold run
  refine foldl_inv (fun st e => runEpoch K n score lossVal e st)
    (fun s => s.logs.length = s.events.countP isEvalEvent)
    (List.range E) ?_ (initState score) ?_
  · intro s e _ h
    exact runEpoch_logs_length K n score lossVal e s h
  · simp [initState, isEvalEvent, List.countP_cons]

theorem run_ckptWrites_updStamp (E n K : Nat) (score lossVal : Nat → Nat → ℚ) :
    (run E n K score lossVal).ckptWrites
      = (run E n K score lossVal).events.filterMap updStamp := by
  unfold run
  refine foldl_inv (fun st e => runEpoch K n score lossVal e st)
    (fun s => s.ckptWrites = s.events.filterMap updStamp)
    (List.range E) ?_ (initState score) ?_
  · intro s e _ h
    exact runEpoch_ckptWrites_updStamp K n score lossVal e s h
  · simp [initState, updStamp]

theorem run_bestHist (E n K : Nat) (score lossVal : Nat → Nat → ℚ) :
    List.Chain' (· ≤ ·) (run E n K score lossVal).bestHist
      ∧ (run E n K score lossVal).bestHist.getLast?
          = some (run E n K score lossVal).bestStsb := by
  unfold run
  refine foldl_inv (fun st e => runEpoch K n score lossVal e st)
    (fun s => List.Chain' (· ≤ ·) s.bestHist
      ∧ s.bestHist.getLast? = some s.bestStsb)
    (List.range E) ?_ (initState score) ?_
  · rintro s e _ ⟨h1, h2⟩
    exact runEpoch_bestHist K n score lossVal e s h1 h2
  · exact ⟨List.chain'_singleton _, rfl⟩

theorem run_no_improvement (E n K : Nat) (score lossVal : Nat → Nat → ℚ)
    (hsc : ∀ e s, e < E → 1 ≤ s → s ≤ n → score e s ≤ score 0 0) :
    (run E n K score lossVal).bestStsb = score 0 0
      ∧ (run E n K score lossVal).bestStep = 0
      ∧ (run E n K score lossVal).ckptWrites = [] := by
  unfold run
  refine foldl_inv (fun st e => runEpoch K n score lossVal e st)
    (fun s => s.bestStsb = score 0 0 ∧ s.bestStep = 0 ∧ s.ckptWrites = [])
    (List.range E) ?_ (initState score) ⟨rfl, rfl, rfl⟩
  rintro s e he ⟨g1, g2, g3⟩
  have heE : e < E := List.mem_range.mp he
  exact runEpoch_no_improvement K n score lossVal e s (score 0 0)
    (fun s' h1 h2 => hsc e s' heE h1 h2) g1 g2 g3

theorem run_events_head (E n K : Nat) (score lossVal : Nat → Nat → ℚ) :
    (run E n K score lossVal).events.head?
      = some (Ev.initEval Mode.eval (score 0 0)) := by
  have hext : ∃ l, (run E n K score lossVal).events
      = (initState score).events ++ l := by
    unfold run
    refine foldl_inv (fun st e => runEpoch K n score lossVal e st)
      (fun s => ∃ l, s.events = (initState score).events ++ l)
      (List.range E) ?_ (initState score) ⟨[], by simp⟩
    rintro s e _ ⟨l, hl⟩
    obtain ⟨l', hl'⟩ := runEpoch_events_ext K n score lossVal e s
    exact ⟨l ++ l', by rw [hl', hl, List.append_assoc]⟩
  obtain ⟨l, hl⟩ := hext
  rw [hl]
  rfl

theorem evalCond_iff (K n step : Nat) :
    evalCond K n step = true ↔ (K ∣ (step + 1) ∨ step + 1 = n) := by
  unfold evalCond
  simp only [Bool.or_eq_true, beq_iff_eq]
  rw [← Nat.dvd_iff_mod_eq_zero]

theorem mem_evalStampsSpec (E n K e s : Nat) :
    (e, s) ∈ evalStampsSpec E n K
      ↔ (e < E ∧ 1 ≤ s ∧ s ≤ n ∧ (K ∣ s ∨ s = n)) := by
  unfold evalStampsSpec
  simp only [List.mem_flatMap, List.mem_map, List.mem_filter, List.mem_range,
    Prod.mk.injEq]
  constructor
  · rintro ⟨e', he', step, ⟨hstep, hcond⟩, he, hs⟩
    subst he; subst hs
    exact ⟨he', Nat.succ_le_succ (Nat.zero_le _), hstep,
      (evalCond_iff K n step).mp hcond⟩
  · rintro ⟨he, hs1, hsn, hcond⟩
    obtain ⟨step, rfl⟩ : ∃ step, s = step + 1 := ⟨s - 1, by omega⟩
    exact ⟨e, he, step, ⟨by omega, (evalCond_iff K n step).mpr hcond⟩, rfl, rfl⟩

theorem stepFn_lastWrite (K n : Nat) (score lossVal : Nat → Nat → ℚ)
    (e : Nat) (st : RunState) (step : Nat)
    (h : st.ckptWrites ≠ [] → st.ckptWrites.getLast? = some st.bestStep) :
    (stepFn K n score lossVal e st step).ckptWrites ≠ []
      → (stepFn K n score lossVal e st step).ckptWrites.getLast?
          = some (stepFn K n score lossVal e st step).bestStep := by
  by_cases hc : evalCond K n step
  · by_cases hu : st.bestStsb < score e (step + 1)
    · have hw : (stepFn K n score lossVal e st step).ckptWrites
          = st.ckptWrites ++ [step + 1] := by simp [stepFn, hc, hu]
      have hb : (stepFn K n score lossVal e st step).bestStep = step + 1 := by
        simp [stepFn, hc, hu]
      rw [hw, hb]
      intro _
      exact List.getLast?_concat _
    · have hw : (stepFn K n score lossVal e st step).ckptWrites
          = st.ckptWrites := by simp [stepFn, hc, hu]
      have hb : (stepFn K n score lossVal e st step).bestStep = st.bestStep := by
        simp [stepFn, hc, hu]
      rw [hw, hb]
      exact h
  · have hw : (stepFn K n score lossVal e st step).ckptWrites
        = st.ckptWrites := by simp [stepFn, hc]
    have hb : (stepFn K n score lossVal e st step).bestStep = st.bestStep := by
      simp [stepFn, hc]
    rw [hw, hb]
    exact h

theorem runEpoch_lastWrite (K n : Nat) (score lossVal : Nat → Nat → ℚ)
    (e : Nat) (st : RunState)
    (h : st.ckptWrites ≠ [] → st.ckptWrites.getLast? = some st.bestStep) :
    (runEpoch K n score lossVal e st).ckptWrites ≠ []
      → (runEpoch K n score lossVal e st).ckptWrites.getLast?
          = some (runEpoch K n score lossVal e st).bestStep := by
  unfold runEpoch
  exact foldl_inv (stepFn K n score lossVal e)
    (fun s => s.ckptWrites ≠ [] → s.ckptWrites.getLast? = some s.bestStep)
    (List.range n)
    (fun s b _ h' => stepFn_lastWrite K n score lossVal e s b h')
    { st with mode := Mode.train } h

theorem run_lastWrite (E n K : Nat) (score lossVal : Nat → Nat → ℚ) :
    (run E n K score lossVal).ckptWrites ≠ []
      → (run E n K score lossVal).ckptWrites.getLast?
          = some (run E n K score lossVal).bestStep := by
  unfold run
  refine foldl_inv (fun st e => runEpoch K n score lossVal e st)
    (fun s => s.ckptWrites ≠ [] → s.ckptWrites.getLast? = some s.bestStep)
    (List.range E) ?_ (initState score) ?_
  · intro s e _ h
    exact runEpoch_lastWrite K n score lossVal e s h
  · intro h
    exact absurd rfl h

/-- C2: at every evaluation event the best state is updated exactly when
the produced score strictly exceeds the best score so far (a tie never
updates); the checkpoint file is overwritten exactly at the updating
events; the sequence of best-score values is non-decreasing across the
run; and whenever any checkpoint was written, the last overwrite happened
at exactly the step recorded in the best-metrics record. -/
theorem checkpoint_policy (E n K : Nat) (score lossVal : Nat → Nat → ℚ)
    (_hK : 0 < K) :
    (∀ e s md pb sc u,
        Ev.evalEv e s md pb sc u ∈ (run E n K score lossVal).events
          → (u = true ↔ pb < sc))
    ∧ (run E n K score lossVal).ckptWrites
        = (run E n K score lossVal).events.filterMap updStamp
    ∧ List.Chain' (· ≤ ·) (run E n K score lossVal).bestHist
    ∧ ((run E n K score lossVal).ckptWrites ≠ []
        → (run E n K score lossVal).ckptWrites.getLast?
            = some (run E n K score lossVal).bestStep) := by
  refine ⟨?_, run_ckptWrites_updStamp E n K score lossVal,
    (run_bestHist E n K score lossVal).1, run_lastWrite E n K score lossVal⟩
  intro e s md pb sc u hmem
  have h := run_evUpdOk E n K score lossVal _ hmem
  simp only [evUpdOk, beq_iff_eq] at h
  rw [h, decide_eq_true_eq]

/-- Witness for C2: a run of one epoch, one step, interval 1, where the
in-training score 1 strictly exceeds the initial score 0, so a checkpoint
exists and its last write step is the recorded best step. -/
theorem checkpoint_policy_witness :
    (run 1 1 1 (fun _ s => if s = 0 then 0 else 1)
      (fun _ _ => 0)).ckptWrites.getLast?
      = some (run 1 1 1 (fun _ s => if s = 0 then 0 else 1)
          (fun _ _ => 0)).bestStep :=
  (checkpoint_policy 1 1 1 (fun _ s => if s = 0 then 0 else 1)
    (fun _ _ => 0) (by decide)).2.2.2 (by decide)

/-- C6: the run evaluates exactly once at step 0, as its first event,
before any gradient update; during training it evaluates exactly at the
steps whose 1-based index is a multiple of the evaluation interval or is
the final step of the epoch; every scoring runs in eval mode and every
gradient update runs in train mode (so the model is back in training mode
after each evaluation). -/
theorem evaluation_schedule (E n K : Nat) (score lossVal : Nat → Nat → ℚ)
    (_hK : 0 < K) :
    (run E n K score lossVal).events.head?
        = some (Ev.initEval Mode.eval (score 0 0))
    ∧ (run E n K score lossVal).events.countP isInitEval = 1
    ∧ (∀ e s, (∃ md pb sc u,
          Ev.evalEv e s md pb sc u ∈ (run E n K score lossVal).events)
        ↔ (e < E ∧ 1 ≤ s ∧ s ≤ n ∧ (K ∣ s ∨ s = n)))
    ∧ (∀ ev ∈ (run E n K score lossVal).events, evModeOk ev = true) := by
  refine ⟨run_events_head E n K score lossVal, run_initCount E n K score lossVal,
    ?_, run_evModeOk E n K score lossVal⟩
  intro e s
  rw [← mem_evalStampsSpec E n K e s, ← run_events_evalStamp E n K score lossVal]
  constructor
  · rintro ⟨md, pb, sc, u, hmem⟩
    exact List.mem_filterMap.mpr ⟨_, hmem, rfl⟩
  · intro hmem
    obtain ⟨ev, hev, hstamp⟩ := List.mem_filterMap.mp hmem
    cases ev with
    | evalEv e' s' md pb sc u =>
      simp only [evalStamp, Option.some.injEq, Prod.mk.injEq] at hstamp
      obtain ⟨he, hs⟩ := hstamp
      subst he; subst hs
      exact ⟨md, pb, sc, u, hev⟩
    | initEval md sc => simp [evalStamp] at hstamp
    | gradStep e' s' md => simp [evalStamp] at hstamp
    | ckptWrite s' => simp [evalStamp] at hstamp

/-- Witness for C6: in a run of one epoch with one step and interval 1, an
in-training evaluation event exists at epoch 0, step 1. -/
theorem evaluation_schedule_witness :
    ∃ md pb sc u, Ev.evalEv 0 1 md pb sc u
      ∈ (run 1 1 1 (fun _ _ => 0) (fun _ _ => 0)).events :=
  ((evaluation_schedule 1 1 1 (fun _ _ => 0) (fun _ _ => 0)
    (by decide)).2.2.1 0 1).mpr (by decide)

/-- C10: if no evaluation can produce a score strictly above the step-0
score, the checkpoint file is never written during the run, and the
best-metrics record reports step 0 with the step-0 score. -/
theorem no_improvement_keeps_initial_best (E n K : Nat)
    (score lossVal : Nat → Nat → ℚ) (_hK : 0 < K)
    (hsc : ∀ e s, e < E → 1 ≤ s → s ≤ n → score e s ≤ score 0 0) :
    (run E n K score lossVal).ckptWrites = []
    ∧ bestMetrics (run E n K score lossVal)
        = [("step", PyVal.vint 0), ("stsb", PyVal.vnum (score 0 0))] := by
  obtain ⟨h1, h2, h3⟩ := run_no_improvement E n K score lossVal hsc
  exact ⟨h3, by simp [bestMetrics, h1, h2]⟩

/-- Witness for C10: a run whose scorer always returns 0 never writes a
checkpoint and reports step 0 with score 0. -/
theorem no_improvement_keeps_initial_best_witness :
    (run 1 1 1 (fun _ _ => (0 : ℚ)) (fun _ _ => 0)).ckptWrites = []
    ∧ bestMetrics (run 1 1 1 (fun _ _ => (0 : ℚ)) (fun _ _ => 0))
        = [("step", PyVal.vint 0), ("stsb", PyVal.vnum 0)] :=
  no_improvement_keeps_initial_best 1 1 1 (fun _ _ => 0) (fun _ _ => 0)
    (by decide) (fun _ _ _ _ _ => le_refl 0)

theorem countP_isGradStep_eq (l : List Ev) :
    l.countP isGradStep = (l.filterMap gradStamp).length := by
  induction l with
  | nil => rfl
  | cons ev t ih =>
    cases ev <;> simp [List.countP_cons, isGradStep, gradStamp, ih]

/-- C3 counterexample: a configured batch size of 1 (less than 2) is not
rejected; on a two-line dataset the run silently executes two gradient
steps. -/
theorem batch_size_one_runs :
    ({ batch_size := 1, epochs := 1, eval_logging_interval := 1 } : Args).batch_size < 2
    ∧ (mainRun { batch_size := 1, epochs := 1, eval_logging_interval := 1 }
        [['a'], ['b']] (fun _ _ => 0) (fun _ _ => 0)).events.countP isGradStep
        = 2 := by
  decide

/-- C3 amended: `main` performs no validation of the configured batch size
(nor of any other configuration field); for every configuration with a
positive batch size and evaluation interval, batch size 1 included,
training proceeds and executes exactly `epochs * ⌊N / batch_size⌋`
gradient steps. -/
theorem no_batch_size_validation (a : Args) (lines : List Line)
    (score lossVal : Nat → Nat → ℚ) (_hB : 0 < a.batch_size)
    (_hK : 0 < a.eval_logging_interval) :
    (mainRun a lines score lossVal).events.countP isGradStep
      = a.epochs * (SimCSEDataset.len lines / a.batch_size) := by
  unfold mainRun numBatches
  rw [countP_isGradStep_eq, run_events_gradStamp, List.length_flatMap]
  generalize SimCSEDataset.len lines / a.batch_size = n
  generalize a.epochs = E
  induction E with
  | zero => simp
  | succ E ih =>
    rw [List.range_succ]
    simp [ih, Nat.succ_mul]

/-- Witness for C3's amended statement at batch size 1 on a two-line
dataset: two gradient steps are executed. -/
theorem no_batch_size_validation_witness :
    (mainRun { batch_size := 1, epochs := 1, eval_logging_interval := 1 }
        [['a'], ['b']] (fun _ _ => 0) (fun _ _ => 0)).events.countP isGradStep
      = ({ batch_size := 1, epochs := 1, eval_logging_interval := 1 } : Args).epochs
        * (SimCSEDataset.len [['a'], ['b']]
            / ({ batch_size := 1, epochs := 1,
                  eval_logging_interval := 1 } : Args).batch_size) :=
  no_batch_size_validation
    { batch_size := 1, epochs := 1, eval_logging_interval := 1 }
    [['a'], ['b']] (fun _ _ => 0) (fun _ _ => 0) (by decide) (by decide)

/-- C4: each epoch the loader yields exactly `⌊N/B⌋` batches, each of
exactly `B` samples, in dataset order of the shuffled sequence; the
`N mod B` remainder samples are dropped rather than yielded as a smaller
final batch. -/
theorem loader_full_batches {α : Type} (B : Nat) (hB : 0 < B) (xs : List α) :
    (fullBatches B xs).length = xs.length / B
    ∧ (∀ b ∈ fullBatches B xs, b.length = B)
    ∧ (fullBatches B xs).flatten = xs.take (B * (xs.length / B))
    ∧ ((fullBatches B xs).flatten).length = xs.length - xs.length % B := by
  refine ⟨fullBatches_length B hB xs, fullBatches_batch_length B xs,
    fullBatches_flatten B hB xs, ?_⟩
  rw [fullBatches_flatten B hB xs, List.length_take]
  have h := Nat.div_add_mod xs.length B
  have hle : xs.length / B * B ≤ xs.length := Nat.div_mul_le_self _ _
  omega

/-- Witness for C4 at `B = 2`, three samples: one batch of two, the third
sample dropped. -/
theorem loader_full_batches_witness :
    0 < 2
    ∧ ((fullBatches 2 ([0, 1, 2] : List Nat)).length = 3 / 2
      ∧ (∀ b ∈ fullBatches 2 ([0, 1, 2] : List Nat), b.length = 2)
      ∧ (fullBatches 2 ([0, 1, 2] : List Nat)).flatten
          = ([0, 1, 2] : List Nat).take (2 * (3 / 2))
      ∧ ((fullBatches 2 ([0, 1, 2] : List Nat)).flatten).length = 3 - 3 % 2) :=
  ⟨by decide, loader_full_batches 2 (by decide) [0, 1, 2]⟩

/-- C7: the dataset retains exactly the non-empty stripped lines, in file
order; every retained sample is non-empty; the length is the number of
retained lines; and indexing returns the stored sample unchanged. -/
theorem dataset_retains_trimmed_nonempty (lines : List Line) :
    SimCSEDataset.build lines
        = (lines.map pyStrip).filter (fun l => !l.isEmpty)
    ∧ (∀ l ∈ SimCSEDataset.build lines, l.isEmpty = false)
    ∧ SimCSEDataset.len lines
        = ((lines.map pyStrip).filter (fun l => !l.isEmpty)).length
    ∧ (∀ (i : Nat) (h : i < SimCSEDataset.len lines),
        SimCSEDataset.getitem lines i h = (SimCSEDataset.build lines).get ⟨i, h⟩) := by
  refine ⟨build_eq_filter_map lines, ?_, ?_, fun i h => rfl⟩
  · intro l hl
    rw [build_eq_filter_map] at hl
    have h2 := (List.mem_filter.mp hl).2
    simpa using h2
  · unfold SimCSEDataset.len
    rw [build_eq_filter_map]

/-- Witness for C7 on the file `[" a", " "]`: the blank line is dropped
and index 0 returns the stripped first line. -/
theorem dataset_retains_trimmed_nonempty_witness :
    SimCSEDataset.getitem [[' ', 'a'], [' ']] 0 (by decide)
      = (SimCSEDataset.build [[' ', 'a'], [' ']]).get ⟨0, by decide⟩ :=
  (dataset_retains_trimmed_nonempty [[' ', 'a'], [' ']]).2.2.2 0 (by decide)

/-- C9: the label vector is `torch.arange` of the configured batch size
(not of the batch actually seen), and because every yielded batch has
exactly `batch_size` rows, the cross-entropy shape check succeeds at every
step — the shape-mismatch branch is unreachable. -/
theorem labels_shape_safe (B : Nat) (xs : List Line) :
    labels B = List.range B
    ∧ (labels B).length = B
    ∧ (∀ batch ∈ fullBatches B xs, stepShapeCheck B batch = Except.ok ())
    ∧ (∀ batch ∈ fullBatches B xs,
        stepShapeCheck B batch ≠ Except.error TorchError.shapeMismatch) := by
  have hok : ∀ batch ∈ fullBatches B xs, stepShapeCheck B batch = Except.ok () := by
    intro batch hb
    have hlen := fullBatches_batch_length B xs batch hb
    simp [stepShapeCheck, crossEntropyCheck, simMatrixRows, labels, hlen]
  refine ⟨rfl, List.length_range B, hok, ?_⟩
  intro batch hb
  rw [hok batch hb]
  exact fun hcontra => Except.noConfusion hcontra

/-- Witness for C9: the first batch yielded at `B = 2` on a three-line
dataset passes the shape check. -/
theorem labels_shape_safe_witness :
    stepShapeCheck 2 [['a'], ['b']] = Except.ok () :=
  (labels_shape_safe 2 [['a'], ['b'], ['c']]).2.2.1 [['a'], ['b']]
    (by simp [fullBatches])

theorem mem_foldl_firstSeen (l : List String) :
    ∀ (acc : List String) (k : String),
      k ∈ l.foldl (fun acc k => if k ∈ acc then acc else acc ++ [k]) acc
        ↔ (k ∈ acc ∨ k ∈ l) := by
  induction l with
  | nil =>
    intro acc k
    simp
  | cons b t ih =>
    intro acc k
    simp only [List.foldl_cons, List.mem_cons]
    by_cases hb : b ∈ acc
    · rw [if_pos hb, ih]
      constructor
      · rintro (h | h)
        · exact Or.inl h
        · exact Or.inr (Or.inr h)
      · rintro (h | h | h)
        · exact Or.inl h
        · exact Or.inl (h ▸ hb)
        · exact Or.inr h
    · rw [if_neg hb, ih]
      simp only [List.mem_append, List.mem_singleton]
      tauto

theorem mem_dfColumns (logs : List Row) (k : String) :
    k ∈ dfColumns logs ↔ k ∈ logs.flatMap (fun r => r.map Prod.fst) := by
  unfold dfColumns
  rw [mem_foldl_firstSeen]
  simp

/-- C8 counterexample: in a run with one in-training evaluation, the
persisted table has five columns, the step-0 score sitting under `"STSB"`
and the later scores under the distinct column `"stsb"` — not four columns
with a single score column. -/
theorem log_table_five_columns :
    dfColumns (run 1 1 1 (fun _ _ => 0) (fun _ _ => 0)).logs
      = ["epoch", "step", "loss", "STSB", "stsb"]
    ∧ ("STSB" : String) ≠ "stsb" := by
  decide

/-- C8 amended: the log has one row per evaluation event (step 0
included); the step-0 row has keys {epoch, step, loss, STSB} with a null
loss; every later row has keys {epoch, step, loss, stsb} with a non-null
loss; hence, as soon as one in-training evaluation occurs, the persisted
table's columns are exactly {epoch, step, loss, STSB, stsb}, the score
split over two columns. -/
theorem log_table_shape (E n K : Nat) (score lossVal : Nat → Nat → ℚ)
    (_hK : 0 < K) :
    (run E n K score lossVal).logs.length
        = (run E n K score lossVal).events.countP isEvalEvent
    ∧ (run E n K score lossVal).logs.head? = some (initRow (score 0 0))
    ∧ (initRow (score 0 0)).map Prod.fst = ["epoch", "step", "loss", "STSB"]
    ∧ (initRow (score 0 0)).lookup "loss" = some PyVal.vnone
    ∧ (∀ r ∈ (run E n K score lossVal).logs.tail,
        ∃ e s, r = trainRow e s (lossVal e s) (score e s))
    ∧ (∀ e s lv sc, (trainRow e s lv sc).map Prod.fst
        = ["epoch", "step", "loss", "stsb"])
    ∧ (∀ e s lv sc, (trainRow e s lv sc).lookup "loss" = some (PyVal.vnum lv))
    ∧ (1 ≤ E → 1 ≤ n →
        ∀ k, k ∈ dfColumns (run E n K score lossVal).logs
          ↔ k ∈ (["epoch", "step", "loss", "STSB", "stsb"] : List String)) := by
  have hlogs := run_logs E n K score lossVal
  refine ⟨run_logs_length E n K score lossVal, ?_, rfl, rfl, ?_,
    fun e s lv sc => rfl, fun e s lv sc => rfl, ?_⟩
  · rw [hlogs]
    rfl
  · intro r hr
    rw [hlogs] at hr
    simp only [List.tail_cons] at hr
    obtain ⟨e, _, hr'⟩ := List.mem_flatMap.mp hr
    obtain ⟨step, _, rfl⟩ := List.mem_map.mp hr'
    exact ⟨e, step + 1, rfl⟩
  · intro hE hn k
    rw [mem_dfColumns, hlogs]
    constructor
    · intro hk
      obtain ⟨r, hr, hkr⟩ := List.mem_flatMap.mp hk
      rcases List.mem_cons.mp hr with hr | hr
      · subst hr
        have hk4 : k ∈ (["epoch", "step", "loss", "STSB"] : List String) := by
          simpa [initRow] using hkr
        simp only [List.mem_cons, List.not_mem_nil, or_false] at hk4 ⊢
        tauto
      · obtain ⟨e, _, hr'⟩ := List.mem_flatMap.mp hr
        obtain ⟨step, _, rfl⟩ := List.mem_map.mp hr'
        have hk4 : k ∈ (["epoch", "step", "loss", "stsb"] : List String) := by
          simpa [trainRow] using hkr
        simp only [List.mem_cons, List.not_mem_nil, or_false] at hk4 ⊢
        tauto
    · intro hk
      rcases List.mem_cons.mp hk with h | hk
      · exact List.mem_flatMap.mpr ⟨initRow (score 0 0),
          List.mem_cons_self _ _, by subst h; simp [initRow]⟩
      rcases List.mem_cons.mp hk with h | hk
      · exact List.mem_flatMap.mpr ⟨initRow (score 0 0),
          List.mem_cons_self _ _, by subst h; simp [initRow]⟩
      rcases List.mem_cons.mp hk with h | hk
      · exact List.mem_flatMap.mpr ⟨initRow (score 0 0),
          List.mem_cons_self _ _, by subst h; simp [initRow]⟩
      rcases List.mem_cons.mp hk with h | hk
      · exact List.mem_flatMap.mpr ⟨initRow (score 0 0),
          List.mem_cons_self _ _, by subst h; simp [initRow]⟩
      rcases List.mem_cons.mp hk with h | hk
      · -- k = "stsb": use the final-step evaluation row of epoch 0
        subst h
        refine List.mem_flatMap.mpr
          ⟨trainRow 0 ((n - 1) + 1) (lossVal 0 ((n - 1) + 1)) (score 0 ((n - 1) + 1)),
            ?_, by simp [trainRow]⟩
        refine List.mem_cons_of_mem _ (List.mem_flatMap.mpr ⟨0, ?_, ?_⟩)
        · exact List.mem_range.mpr hE
        · refine List.mem_map.mpr ⟨n - 1, List.mem_filter.mpr ⟨?_, ?_⟩, rfl⟩
          · exact List.mem_range.mpr (by omega)
          · unfold evalCond
            have : n - 1 + 1 = n := by omega
            rw [this]
            simp
      · exact absurd hk (List.not_mem_nil k)

/-- Witness for C8 at a run of one epoch, one step, interval 1: the column
`"stsb"` is among the persisted table's columns. -/
theorem log_table_shape_witness :
    ("stsb" : String) ∈ dfColumns (run 1 1 1 (fun _ _ => 0) (fun _ _ => 0)).logs :=
  ((log_table_shape 1 1 1 (fun _ _ => 0) (fun _ _ => 0)
    (by decide)).2.2.2.2.2.2.2 (by decide) (by decide) "stsb").mpr (by decide)

/-- Witness for C1 at `B = H = 1`, `E1 = E2 = 1`, `τ = 1`, `eps = 0`. -/
theorem stepLoss_is_mean_diagonal_crossEntropy_witness :
    (∀ i j, simMatrix 0 1 (fun _ _ => (1 : ℝ) : Mat 1 1) (fun _ _ => 1) i j
        = specSimEntry 1 (fun _ _ => (1 : ℝ) : Mat 1 1) (fun _ _ => 1) i j)
    ∧ stepLoss 0 1 (fun _ _ => (1 : ℝ) : Mat 1 1) (fun _ _ => 1)
        = specMeanRowCE 0 1 (fun _ _ => (1 : ℝ) : Mat 1 1) (fun _ _ => 1) :=
  stepLoss_is_mean_diagonal_crossEntropy 0 1 _ _
    (fun _ _ => mul_nonneg (rowNorm_nonneg _) (rowNorm_nonneg _))

end SimCSE
